import Mathlib

/-!
Shallow embedding of the arda-notification service (Go) for checking its
natural-language specification.

Source files embedded here:
- `internal/domain` (Notification entity, FanoutInput, CreateNotificationInput,
  NotificationFilter; the scope / type constants are string-typed in Go, their
  values are pinned by the migration CHECK constraint and the README tables);
- `internal/infrastructure/postgres` (Repository over the `notifications`
  table, including the partial unique index `idx_notif_source_event` on
  `source_event_id WHERE source_event_id IS NOT NULL`);
- `internal/application/service.go` (Service.Create, Service.Fanout,
  Service.resolveTargets, Service.List);
- `internal/kafka/handlers` direct command decoder (`handleDirectCommand`);
- `internal/infrastructure/keycloak/resolver.go` (AllActiveUsers);
- `internal/transport` HTTP helpers (`parseIntQuery`) and middleware
  (`JWTAuth`, `extractRealm`, `verifyWithJWKS`).

Database state is modelled as an explicit list of rows plus a fresh-id
counter; timestamps are `Nat` and are passed explicitly where the Go code
calls `time.Now()`.  Infrastructure failures (broken DB connection,
unreachable HTTP endpoints) are modelled as `Except String` inputs where the
claim under check depends on them, and are otherwise out of scope.
-/

namespace ArdaNotification

/-! ## Domain model (internal/domain) -/

/-- Go `domain.NotificationType` is a string type. -/
abbrev NotificationType := String

/-- Go `domain.TargetScope` is a string type. -/
abbrev TargetScope := String

def TypeSystem : NotificationType := "SYSTEM"
def TypeWorkflow : NotificationType := "WORKFLOW"
def TypeCRM : NotificationType := "CRM"
def TypeIAM : NotificationType := "IAM"
def TypeCustom : NotificationType := "CUSTOM"

def ScopeUser : TargetScope := "USER"
def ScopeTenant : TargetScope := "TENANT"
def ScopePlatform : TargetScope := "PLATFORM"
def ScopeRole : TargetScope := "ROLE"

/-- Go `domain.CreateNotificationInput`: the post-resolution record handed to
the Store, one per recipient.  `metadata` is carried as an opaque JSON blob
(`json.Marshal` output); its contents are never inspected by the code under
check. An empty `sourceEventID` means "no idempotency key" (stored as NULL). -/
structure CreateNotificationInput where
  tenantKey : String
  userID : String
  typ : NotificationType
  title : String
  body : String
  metadata : String
  sourceEventID : String
deriving Repr, DecidableEq

/-- A row of the `notifications` table (= Go `domain.Notification` as
persisted).  `readAt` and `sourceEventID` are nullable columns, hence
`Option`; `id` is the UUID primary key, modelled as the insertion counter. -/
structure Notification where
  id : Nat
  tenantKey : String
  userID : String
  typ : NotificationType
  title : String
  body : String
  metadata : String
  isRead : Bool
  readAt : Option Nat
  createdAt : Nat
  sourceEventID : Option String
deriving Repr, DecidableEq

/-- Go `domain.NotificationFilter` (limit/offset are Go `int`). -/
structure NotificationFilter where
  tenantKey : String
  userID : String
  isRead : Option Bool
  typ : NotificationType
  limit : Int
  offset : Int
deriving Repr, DecidableEq

/-- Go `domain.FanoutInput`: the transient request produced by decoders. -/
structure FanoutInput where
  targetScope : TargetScope
  targetID : String
  tenantKey : String
  typ : NotificationType
  title : String
  body : String
  metadata : String
  sourceEventID : String
  originUserID : String
deriving Repr, DecidableEq

/-! ## The notifications table (migrations/001, internal/infrastructure/postgres) -/

/-- The `notifications` table plus the id generator.  `rows` is kept in
insertion order. -/
structure Store where
  rows : List Notification
  nextID : Nat
deriving Repr, DecidableEq

def emptyStore : Store := { rows := [], nextID := 0 }

/-- The NULL-mapping the repository applies before insert: Go passes
`nil` for `source_event_id` when the input's key is the empty string. -/
def sidOf (input : CreateNotificationInput) : Option String :=
  if input.sourceEventID = "" then none else some input.sourceEventID

/-- The partial unique index `idx_notif_source_event` on
`(source_event_id) WHERE source_event_id IS NOT NULL`: a proposed row
conflicts exactly when its `source_event_id` is non-NULL and some existing
row already carries the same non-NULL value. -/
def sourceConflict (rows : List Notification) (sid : Option String) : Bool :=
  match sid with
  | none => false
  | some v => rows.any (fun r => r.sourceEventID = some v)

/-- The row built by the INSERT: `is_read` and `read_at` take their column
defaults (FALSE / NULL) and `created_at` is assigned at insert time. -/
def mkRow (s : Store) (input : CreateNotificationInput) (now : Nat) : Notification :=
  { id := s.nextID
    tenantKey := input.tenantKey
    userID := input.userID
    typ := input.typ
    title := input.title
    body := input.body
    metadata := input.metadata
    isRead := false
    readAt := none
    createdAt := now
    sourceEventID := sidOf input }

/-- `Repository.Create`: single-row `INSERT ... ON CONFLICT (source_event_id)
WHERE source_event_id IS NOT NULL DO NOTHING RETURNING ...`.  On conflict the
statement returns no row (`pgx.ErrNoRows`) and the Go code maps that to
`nil, nil` — no new row, no error.  DB transport errors are not modelled. -/
def RepoCreate (s : Store) (input : CreateNotificationInput) (now : Nat) :
    Option Notification × Store :=
  if sourceConflict s.rows (sidOf input) then (none, s)
  else
    let n := mkRow s input now
    (some n, { rows := s.rows ++ [n], nextID := s.nextID + 1 })

/-- `Repository.BatchCreate`: one multi-row INSERT with the same ON CONFLICT
clause, RETURNING only the rows actually inserted.  Postgres checks each
proposed row against the index state including rows inserted earlier in the
same statement, so a later duplicate inside one batch is also dropped; this
is modelled by threading the store row by row.  Empty input performs no
query and returns the empty list. -/
def RepoBatchCreate (s : Store) (inputs : List CreateNotificationInput) (now : Nat) :
    List Notification × Store :=
  match inputs with
  | [] => ([], s)
  | input :: rest =>
    match RepoCreate s input now with
    | (none, s1) => RepoBatchCreate s1 rest now
    | (some n, s1) =>
      let (ns, s2) := RepoBatchCreate s1 rest now
      (n :: ns, s2)

/-- Row predicate of `Repository.MarkRead`'s UPDATE:
`id = $2 AND tenant_key = $3 AND user_id = $4 AND is_read = FALSE`. -/
def markReadMatches (id : Nat) (tenantKey userID : String) (r : Notification) : Bool :=
  r.id = id && r.tenantKey = tenantKey && r.userID = userID && r.isRead = false

/-- `Repository.MarkRead`: `UPDATE notifications SET is_read = TRUE,
read_at = $1 WHERE id = .. AND tenant_key = .. AND user_id = .. AND
is_read = FALSE`; zero rows affected is reported as an error. -/
def RepoMarkRead (s : Store) (id : Nat) (tenantKey userID : String) (now : Nat) :
    Except String Unit × Store :=
  let rows' := s.rows.map (fun r =>
    if markReadMatches id tenantKey userID r
    then { r with isRead := true, readAt := some now }
    else r)
  let affected := (s.rows.filter (markReadMatches id tenantKey userID)).length
  if affected = 0 then (.error "notification not found or already read", s)
  else (.ok (), { s with rows := rows' })

/-- Row predicate of `Repository.MarkAllRead`'s UPDATE. -/
def markAllReadMatches (tenantKey userID : String) (r : Notification) : Bool :=
  r.tenantKey = tenantKey && r.userID = userID && r.isRead = false

/-- `Repository.MarkAllRead`: bulk UPDATE of all unread rows of the user;
returns the affected count, never an application-level error. -/
def RepoMarkAllRead (s : Store) (tenantKey userID : String) (now : Nat) :
    Nat × Store :=
  let rows' := s.rows.map (fun r =>
    if markAllReadMatches tenantKey userID r
    then { r with isRead := true, readAt := some now }
    else r)
  let affected := (s.rows.filter (markAllReadMatches tenantKey userID)).length
  (affected, { s with rows := rows' })

/-- `Repository.Delete`: DELETE matching all three keys; zero rows affected
is reported as "notification not found". -/
def RepoDelete (s : Store) (id : Nat) (tenantKey userID : String) :
    Except String Unit × Store :=
  let keep := fun (r : Notification) =>
    !(r.id = id && r.tenantKey = tenantKey && r.userID = userID)
  let rows' := s.rows.filter keep
  if rows'.length = s.rows.length then (.error "notification not found", s)
  else (.ok (), { s with rows := rows' })

/-- `Repository.CountUnread`. -/
def RepoCountUnread (s : Store) (tenantKey userID : String) : Nat :=
  (s.rows.filter (fun r => r.tenantKey = tenantKey && r.userID = userID && r.isRead = false)).length

/-- `Repository.PurgeOlderThan`: DELETE WHERE `created_at < cutoff`, where the
Go code computes `cutoff = now - days`; returns the deleted count. -/
def RepoPurgeOlderThan (s : Store) (cutoff : Nat) : Nat × Store :=
  let rows' := s.rows.filter (fun r => !(r.createdAt < cutoff))
  (s.rows.length - rows'.length, { s with rows := rows' })

/-- Descending insertion by `created_at` (ORDER BY created_at DESC; the
relative order of equal timestamps is unspecified by the spec). -/
def insertByCreatedAtDesc (n : Notification) : List Notification → List Notification
  | [] => [n]
  | m :: rest =>
    if n.createdAt ≤ m.createdAt then m :: insertByCreatedAtDesc n rest
    else n :: m :: rest

/-- `Repository.List`: WHERE tenant/user plus the optional `is_read` and
`type` filters, ORDER BY created_at DESC, LIMIT/OFFSET. -/
def RepoList (s : Store) (f : NotificationFilter) : List Notification :=
  let base := s.rows.filter (fun r =>
    r.tenantKey = f.tenantKey && r.userID = f.userID
    && (match f.isRead with
        | none => true
        | some b => r.isRead = b)
    && (if f.typ = "" then true else r.typ = f.typ))
  let sorted := base.foldr insertByCreatedAtDesc []
  (sorted.drop f.offset.toNat).take f.limit.toNat

/-! ## Application service (internal/application/service.go) -/

/-- The resolver port (`application.IAMResolver`).  Result maps are
association lists standing for Go maps; keys are unique in every map the
Keycloak implementation produces. -/
structure IAMResolver where
  usersByTenant : String → Except String (List String)
  usersByRole : String → String → Except String (List String)
  allActiveUsers : Except String (List (String × List String))

/-- First-occurrence lookup in an association list (Go map read). -/
def alistLookup (m : List (String × List String)) (k : String) : Option (List String) :=
  match m with
  | [] => none
  | (k', v) :: rest => if k' = k then some v else alistLookup rest k

/-- Go `result[tenant] = append(result[tenant], uid)`: appends to the
existing entry, or creates the entry when the key is absent. -/
def alistAppend (m : List (String × List String)) (k : String) (v : String) :
    List (String × List String) :=
  match m with
  | [] => [(k, [v])]
  | (k', vs) :: rest =>
    if k' = k then (k', vs ++ [v]) :: rest else (k', vs) :: alistAppend rest k v

/-- Whether some value list of the map contains the user id. -/
def originIncluded (m : List (String × List String)) (uid : String) : Bool :=
  m.any (fun p => p.2.contains uid)

/-- The post-resolution step of `Service.resolveTargets`: if `OriginUserID`
is non-empty and absent from every value list, append it under the request's
tenant, or under "master" when the tenant key is empty. -/
def ensureOrigin (input : FanoutInput) (m : List (String × List String)) :
    List (String × List String) :=
  if input.originUserID = "" then m
  else if originIncluded m input.originUserID then m
  else
    let tenant := if input.tenantKey = "" then "master" else input.tenantKey
    alistAppend m tenant input.originUserID

/-- The scope switch of `Service.resolveTargets` (before the origin step). -/
def resolveScope (res : IAMResolver) (input : FanoutInput) :
    Except String (List (String × List String)) :=
  if input.targetScope = ScopeUser then
    .ok [(input.tenantKey, [input.targetID])]
  else if input.targetScope = ScopeTenant then
    match res.usersByTenant input.tenantKey with
    | .error e => .error e
    | .ok userIDs => .ok [(input.tenantKey, userIDs)]
  else if input.targetScope = ScopeRole then
    match res.usersByRole input.tenantKey input.targetID with
    | .error e => .error e
    | .ok userIDs => .ok [(input.tenantKey, userIDs)]
  else if input.targetScope = ScopePlatform then
    match res.allActiveUsers with
    | .error e => .error e
    | .ok all => .ok all
  else .error ("unknown target scope: " ++ input.targetScope)

/-- `Service.resolveTargets`: the scope switch followed by the
origin-inclusion step. -/
def resolveTargets (res : IAMResolver) (input : FanoutInput) :
    Except String (List (String × List String)) :=
  match resolveScope res input with
  | .error e => .error e
  | .ok m => .ok (ensureOrigin input m)

/-- The flattening step of `Service.Fanout`: one `CreateNotificationInput`
per `(tenantKey, userID)` pair, all sharing the request's fields and
`source_event_id`. -/
def fanoutBatch (m : List (String × List String)) (input : FanoutInput) :
    List CreateNotificationInput :=
  m.flatMap (fun p => p.2.map (fun uid =>
    { tenantKey := p.1
      userID := uid
      typ := input.typ
      title := input.title
      body := input.body
      metadata := input.metadata
      sourceEventID := input.sourceEventID }))

/-- `Service.Create`: persist one input, broadcast it when (and only when)
the repository reports a newly inserted row.  The third component collects
the Push Hub broadcasts (`hub.Broadcast` calls).  The only `.error` return
in the Go function propagates a DB failure, which is not modelled. -/
def ServiceCreate (s : Store) (input : CreateNotificationInput) (now : Nat) :
    Except String (Option Notification) × Store × List Notification :=
  match RepoCreate s input now with
  | (none, s') => (.ok none, s', [])
  | (some n, s') => (.ok (some n), s', [n])

/-- `Service.Fanout`: resolve, flatten, return early on an empty batch,
batch-insert, then broadcast exactly the rows the repository reports as
newly inserted.  The third component collects the Push Hub broadcasts. -/
def ServiceFanout (s : Store) (res : IAMResolver) (input : FanoutInput) (now : Nat) :
    Except String Unit × Store × List Notification :=
  match resolveTargets res input with
  | .error e => (.error ("resolve fan-out targets: " ++ e), s, [])
  | .ok usersByTenant =>
    let batch := fanoutBatch usersByTenant input
    if batch.isEmpty then (.ok (), s, [])
    else
      let (inserted, s') := RepoBatchCreate s batch now
      (.ok (), s', inserted)

/-- The limit actually applied by `Service.List`: out-of-range values
(including the zero Go default) are replaced by 20. -/
def listLimit (l : Int) : Int :=
  if l ≤ 0 ∨ l > 100 then 20 else l

/-- `Service.List`: normalise the limit, then query the repository. -/
def ServiceList (s : Store) (f : NotificationFilter) : List Notification :=
  RepoList s { f with limit := listLimit f.limit }

/-- `parseIntQuery` (HTTP layer): `strconv.Atoi` of the query parameter;
a missing or unparseable parameter (`none`) or a negative value falls back
to the supplied default. -/
def parseIntQuery (raw : Option Int) (deflt : Int) : Int :=
  match raw with
  | none => deflt
  | some v => if v < 0 then deflt else v

/-! ## Direct command decoder (internal/kafka/handlers, `handleDirectCommand`) -/

/-- The JSON shape read from the `notification-commands` topic. -/
structure DirectCommand where
  commandID : String
  tenantKey : String
  targetScope : String
  targetID : String
  typ : String
  title : String
  body : String
  metadata : String
deriving Repr, DecidableEq

/-- The `type` values accepted unchanged by the direct command decoder. -/
def recognizedType (t : String) : Bool :=
  t = TypeSystem || t = TypeWorkflow || t = TypeCRM || t = TypeIAM || t = TypeCustom

/-- The `targetScope` values accepted unchanged by the direct command decoder. -/
def recognizedScope (sc : String) : Bool :=
  sc = ScopeUser || sc = ScopeTenant || sc = ScopePlatform || sc = ScopeRole

/-- `handleDirectCommand`: `none` input models a `json.Unmarshal` failure
(the handler skips the record).  An unrecognised `type` falls back to
CUSTOM; an unrecognised scope falls back to USER when `targetId` is
non-empty and otherwise skips; `commandId` becomes the idempotency key. -/
def handleDirectCommand (parsed : Option DirectCommand) : Option FanoutInput :=
  match parsed with
  | none => none
  | some cmd =>
    let notifType := if recognizedType cmd.typ then cmd.typ else TypeCustom
    let scope? : Option String :=
      if recognizedScope cmd.targetScope then some cmd.targetScope
      else if cmd.targetID ≠ "" then some ScopeUser
      else none
    match scope? with
    | none => none
    | some scope =>
      some { targetScope := scope
             targetID := cmd.targetID
             tenantKey := cmd.tenantKey
             typ := notifType
             title := cmd.title
             body := cmd.body
             metadata := cmd.metadata
             sourceEventID := cmd.commandID
             originUserID := "" }

/-! ## Keycloak resolver (internal/infrastructure/keycloak/resolver.go) -/

/-- A Keycloak user representation (`{id, enabled}`). -/
structure KUser where
  id : String
  enabled : Bool
deriving Repr, DecidableEq

/-- A Keycloak realm representation (`{realm, enabled}`). -/
structure RealmRep where
  realm : String
  enabled : Bool
deriving Repr, DecidableEq

/-- `enabledIDs`: keep the ids of enabled users. -/
def enabledIDs (users : List KUser) : List String :=
  (users.filter (fun u => u.enabled)).map (fun u => u.id)

/-- The external Keycloak world as `AllActiveUsers` observes it on a cache
miss: the client-credentials token call, the `GET /admin/realms` response
(fetch plus JSON decode), and per-realm `listUsers` (which fetches its own
token; its `Except` covers that failure too). -/
structure KeycloakEnv where
  adminToken : Except String String
  realms : Except String (List RealmRep)
  listUsers : String → Except String (List KUser)

/-- The loop body of `AllActiveUsers` for one realm: skip it when disabled
or the admin realm, skip (log-and-continue) when its user listing fails, and
skip when it has no enabled users; otherwise contribute its entry. -/
def realmEntry (adminRealm : String) (env : KeycloakEnv) (realm : RealmRep) :
    Option (String × List String) :=
  if !realm.enabled || realm.realm = adminRealm then none
  else
    match env.listUsers realm.realm with
    | .error _ => none
    | .ok users =>
      let ids := enabledIDs users
      if ids.length > 0 then some (realm.realm, ids) else none

/-- `Resolver.AllActiveUsers` (cache-miss path; a cache hit returns the
previously computed map unchanged).  Token and realm-enumeration failures
abort the call; each realm then contributes via `realmEntry`. -/
def AllActiveUsers (adminRealm : String) (env : KeycloakEnv) :
    Except String (List (String × List String)) :=
  match env.adminToken with
  | .error e => .error e
  | .ok _ =>
    match env.realms with
    | .error e => .error e
    | .ok realms =>
      .ok (realms.foldl (fun acc realm =>
        match realmEntry adminRealm env realm with
        | none => acc
        | some entry => acc ++ [entry]) [])

/-! ## Pull-API authentication (internal/transport/mw) -/

/-- A bearer token as the middleware observes it through the jwt library:
whether `ParseUnverified` accepts it (structural JWT shape), its `iss` and
`sub` claims, and whether its signature is actually valid under the
provider's keys — the last is what the claim under check is about. -/
structure JWT where
  wellFormed : Bool
  iss : String
  sub : String
  sigValid : Bool
deriving Repr, DecidableEq

/-- Leading-separator removal: `stripSep sep l` is the remainder of `l`
when `sep` is one of its leading segments, `none` otherwise. -/
def stripSep : List Char → List Char → Option (List Char)
  | [], l => some l
  | _ :: _, [] => none
  | c :: cs, x :: xs => if x = c then stripSep cs xs else none

/-- The scan of Go `strings.Split`: cut at each leftmost occurrence of the
separator.  The `Nat` argument is recursion fuel; every step consumes at
least one character, so `length + 1` fuel always suffices. -/
def splitSepFuel (sep : List Char) : Nat → List Char → List Char → List (List Char)
  | 0, _, acc => [acc.reverse]
  | _ + 1, [], acc => [acc.reverse]
  | fuel + 1, x :: xs, acc =>
    match stripSep sep (x :: xs) with
    | some rest => acc.reverse :: splitSepFuel sep fuel rest []
    | none => splitSepFuel sep fuel xs (x :: acc)

/-- Go `strings.Split` on rune lists.  The middleware only calls it with the
non-empty separator "/realms/", so the empty-separator case is immaterial. -/
def splitSep (sep l : List Char) : List (List Char) :=
  if sep = [] then [l] else splitSepFuel sep (l.length + 1) l []

/-- `extractRealm`: split the issuer on "/realms/"; exactly two parts means
the realm is the part after it, with one trailing "/" trimmed
(`strings.TrimSuffix`). -/
def extractRealm (issuer : String) : String :=
  match splitSep ("/realms/".toList) issuer.toList with
  | [_, p] => String.mk (if p.getLast? = some '/' then p.dropLast else p)
  | _ => ""

/-- `verifyWithJWKS` (signature as observable behaviour): on a fresh cache
the JWKS fetch is skipped; otherwise a failed fetch-and-decode is the only
error.  The subsequent `jwt.Parse` result is discarded (`_ = err`), so the
token — in particular its signature validity — never influences the
result. -/
def verifyWithJWKS (cacheFresh : Bool) (jwksFetch : Except String Unit) (_token : JWT) :
    Except String Unit :=
  if cacheFresh then .ok ()
  else
    match jwksFetch with
    | .error e => .error ("fetch jwks: " ++ e)
    | .ok _ => .ok ()

/-- Outcome of the `JWTAuth` middleware. -/
inductive AuthResult where
  | unauthorized (msg : String)
  | accepted (userID realm : String)
deriving Repr, DecidableEq

/-- `JWTAuth`: require a Bearer header, parse the token without
verification, extract the realm from the issuer, then call
`verifyWithJWKS`; on success store `(sub, realm)` and pass the request on. -/
def JWTAuth (hasBearer : Bool) (token : JWT) (cacheFresh : Bool)
    (jwksFetch : Except String Unit) : AuthResult :=
  if !hasBearer then .unauthorized "missing bearer token"
  else if !token.wellFormed then .unauthorized "invalid token format"
  else
    let realm := extractRealm token.iss
    if realm = "" then .unauthorized "cannot extract realm from token issuer"
    else
      match verifyWithJWKS cacheFresh jwksFetch token with
      | .error _ => .unauthorized "invalid token signature"
      | .ok _ => .accepted token.sub realm

/-! ## Event processing (for the idempotency invariant) -/

/-- One processed event at the store boundary: either a single `Create`
(direct API / USER-scoped path) or one `BatchCreate` batch (fan-out path). -/
inductive StoreEvent where
  | create (input : CreateNotificationInput)
  | batch (inputs : List CreateNotificationInput)
deriving Repr, DecidableEq

/-- The inputs an event presents to the store. -/
def eventInputs : StoreEvent → List CreateNotificationInput
  | .create input => [input]
  | .batch inputs => inputs

/-- Apply one event to the store (at its own insertion timestamp). -/
def applyEvent (s : Store) (e : StoreEvent × Nat) : Store :=
  match e.1 with
  | .create input => (RepoCreate s input e.2).2
  | .batch inputs => (RepoBatchCreate s inputs e.2).2

/-- Process a sequence of events in order. -/
def processEvents (s : Store) (es : List (StoreEvent × Nat)) : Store :=
  es.foldl applyEvent s

/-- All source-event ids presented by a sequence of events, in order. -/
def seenSids (es : List (StoreEvent × Nat)) : List String :=
  (es.flatMap (fun e => eventInputs e.1)).map (fun i => i.sourceEventID)

/-- The non-NULL source-event ids currently stored. -/
def storeSids (s : Store) : List String :=
  s.rows.filterMap (fun r => r.sourceEventID)

/-! ## Store invariants -/

/-- Schema invariant: `read_at` is non-NULL exactly when `is_read` is true. -/
def readInvariant (s : Store) : Prop :=
  ∀ r ∈ s.rows, r.readAt.isSome = r.isRead

/-- Primary-key uniqueness of `id`. -/
def idsNodup (s : Store) : Prop :=
  (s.rows.map (fun r => r.id)).Nodup

/-- The id generator is ahead of every stored row. -/
def idsFresh (s : Store) : Prop :=
  ∀ r ∈ s.rows, r.id < s.nextID

/-- The conjunction of the store's structural invariants. -/
def StoreInv (s : Store) : Prop :=
  readInvariant s ∧ idsNodup s ∧ idsFresh s

/-- Monotonic read state between two store states: a row that was read keeps
its flag and its `read_at` in any successor row carrying the same id. -/
def readMonotone (s s' : Store) : Prop :=
  ∀ r ∈ s.rows, ∀ r' ∈ s'.rows, r'.id = r.id → r.isRead = true →
    r'.isRead = true ∧ r'.readAt = r.readAt

/-- Insert-only evolution: old rows survive unchanged and every other row is
fresh (id at or above the old generator value). -/
def growsFrom (s s' : Store) : Prop :=
  s.nextID ≤ s'.nextID
  ∧ (∀ r ∈ s.rows, r ∈ s'.rows)
  ∧ (∀ r' ∈ s'.rows, r' ∈ s.rows ∨ s.nextID ≤ r'.id)

theorem growsFrom_refl (s : Store) : growsFrom s s :=
  ⟨le_refl _, fun _ h => h, fun _ h => Or.inl h⟩

theorem growsFrom_trans {s1 s2 s3 : Store} (h12 : growsFrom s1 s2) (h23 : growsFrom s2 s3) :
    growsFrom s1 s3 := by
  obtain ⟨hn12, hold12, hnew12⟩ := h12
  obtain ⟨hn23, hold23, hnew23⟩ := h23
  refine ⟨le_trans hn12 hn23, fun r hr => hold23 r (hold12 r hr), fun r' hr' => ?_⟩
  rcases hnew23 r' hr' with h2 | h2
  · exact hnew12 r' h2
  · exact Or.inr (le_trans hn12 h2)

theorem RepoCreate_grows (s : Store) (input : CreateNotificationInput) (now : Nat) :
    growsFrom s (RepoCreate s input now).2 := by
  unfold RepoCreate
  by_cases h : sourceConflict s.rows (sidOf input) = true
  · simp [h, growsFrom_refl]
  · simp only [Bool.not_eq_true] at h
    simp only [h, Bool.false_eq_true, if_false]
    refine ⟨Nat.le_succ _, fun r hr => by simp [hr], fun r' hr' => ?_⟩
    rcases List.mem_append.mp hr' with hmem | hmem
    · exact Or.inl hmem
    · right
      simp only [List.mem_singleton] at hmem
      rw [hmem]
      simp [mkRow]

theorem RepoCreate_inv (s : Store) (input : CreateNotificationInput) (now : Nat)
    (hs : StoreInv s) : StoreInv (RepoCreate s input now).2 := by
  obtain ⟨hread, hnodup, hfresh⟩ := hs
  unfold RepoCreate
  by_cases h : sourceConflict s.rows (sidOf input) = true
  · simpa [h] using ⟨hread, hnodup, hfresh⟩
  · simp only [Bool.not_eq_true] at h
    refine ⟨?_, ?_, ?_⟩
    · intro r hr
      simp [h, mkRow] at hr
      rcases hr with hr | hr
      · exact hread r hr
      · simp [hr]
    · simp only [idsNodup, h, Bool.false_eq_true, if_neg, ite_false, List.map_append]
      rw [List.nodup_append]
      refine ⟨hnodup, by simp [mkRow], ?_⟩
      intro a ha hb
      simp [mkRow] at hb
      simp only [List.mem_map] at ha
      obtain ⟨r, hr, hrid⟩ := ha
      have := hfresh r hr
      omega
    · intro r hr
      simp only [h, Bool.false_eq_true, if_false] at hr ⊢
      rcases List.mem_append.mp hr with hmem | hmem
      · exact Nat.lt_succ_of_lt (hfresh r hmem)
      · simp only [List.mem_singleton] at hmem
        rw [hmem]
        simp [mkRow]

/-- Both branches of `RepoBatchCreate` thread the post-`Create` store. -/
theorem RepoBatchCreate_snd_cons (s : Store) (input : CreateNotificationInput)
    (rest : List CreateNotificationInput) (now : Nat) :
    (RepoBatchCreate s (input :: rest) now).2 =
      (RepoBatchCreate (RepoCreate s input now).2 rest now).2 := by
  rcases h : RepoCreate s input now with ⟨n, s1⟩
  cases n <;> simp [RepoBatchCreate, h]

theorem RepoBatchCreate_grows (s : Store) (inputs : List CreateNotificationInput) (now : Nat) :
    growsFrom s (RepoBatchCreate s inputs now).2 := by
  induction inputs generalizing s with
  | nil => simpa [RepoBatchCreate] using growsFrom_refl s
  | cons input rest ih =>
    rw [RepoBatchCreate_snd_cons]
    exact growsFrom_trans (RepoCreate_grows s input now) (ih _)

theorem RepoBatchCreate_inv (s : Store) (inputs : List CreateNotificationInput) (now : Nat)
    (hs : StoreInv s) : StoreInv (RepoBatchCreate s inputs now).2 := by
  induction inputs generalizing s with
  | nil => simpa [RepoBatchCreate]
  | cons input rest ih =>
    rw [RepoBatchCreate_snd_cons]
    exact ih _ (RepoCreate_inv s input now hs)

/-- Insert-only evolution implies monotonic read state (given the invariants
on the starting store). -/
theorem readMonotone_of_growsFrom {s s' : Store} (hs : StoreInv s) (hg : growsFrom s s') :
    readMonotone s s' := by
  obtain ⟨_, hnodup, hfresh⟩ := hs
  obtain ⟨_, _, hnew⟩ := hg
  intro r hr r' hr' hid hread
  rcases hnew r' hr' with hmem | hfreshid
  · have : r' = r := List.inj_on_of_nodup_map hnodup hmem hr (by simpa using hid)
    simp [this, hread]
  · exact absurd (hid ▸ hfreshid) (Nat.not_le_of_lt (hfresh r hr))

/-- An UPDATE that touches no key, rewrites each row to itself or to its
read-marked copy, preserves the store invariants. -/
theorem mapUpdate_inv (s : Store) (f : Notification → Notification) (now : Nat)
    (hid : ∀ r, (f r).id = r.id)
    (hshape : ∀ r, f r = r ∨ f r = { r with isRead := true, readAt := some now })
    (hs : StoreInv s) : StoreInv { s with rows := s.rows.map f } := by
  obtain ⟨hread, hnodup, hfresh⟩ := hs
  refine ⟨?_, ?_, ?_⟩
  · intro r' hr'
    simp only [List.mem_map] at hr'
    obtain ⟨r, hr, hfr⟩ := hr'
    rcases hshape r with hc | hc
    · rw [← hfr, hc]; exact hread r hr
    · rw [← hfr, hc]; rfl
  · show ((s.rows.map f).map (fun r => r.id)).Nodup
    rw [List.map_map]
    have : s.rows.map ((fun r : Notification => r.id) ∘ f) = s.rows.map (fun r => r.id) :=
      List.map_congr_left (fun r _ => hid r)
    rw [this]
    exact hnodup
  · intro r' hr'
    simp only [List.mem_map] at hr'
    obtain ⟨r, hr, hfr⟩ := hr'
    have := hfresh r hr
    rw [← hfr, hid r]
    exact this

/-- An UPDATE that leaves every already-read row untouched keeps the read
state monotone. -/
theorem mapUpdate_mono (s : Store) (f : Notification → Notification)
    (hid : ∀ r, (f r).id = r.id)
    (hkeep : ∀ r, r.isRead = true → f r = r)
    (hs : StoreInv s) : readMonotone s { s with rows := s.rows.map f } := by
  obtain ⟨_, hnodup, _⟩ := hs
  intro r hr r' hr' hideq hread
  simp only [List.mem_map] at hr'
  obtain ⟨r0, hr0, hfr0⟩ := hr'
  have hr0id : r0.id = r.id := by rw [← hideq, ← hfr0, hid r0]
  have : r0 = r := List.inj_on_of_nodup_map hnodup hr0 hr (by simpa using hr0id)
  subst this
  rw [hkeep r0 hread] at hfr0
  rw [← hfr0]
  exact ⟨hread, rfl⟩

/-- A DELETE preserves the store invariants. -/
theorem filterOp_inv (s : Store) (p : Notification → Bool) (hs : StoreInv s) :
    StoreInv { s with rows := s.rows.filter p } := by
  obtain ⟨hread, hnodup, hfresh⟩ := hs
  refine ⟨?_, ?_, ?_⟩
  · intro r hr
    exact hread r (List.mem_of_mem_filter hr)
  · exact List.Nodup.sublist (List.Sublist.map _ (List.filter_sublist s.rows)) hnodup
  · intro r hr
    exact hfresh r (List.mem_of_mem_filter hr)

/-- A DELETE keeps the read state monotone (surviving rows are unchanged). -/
theorem filterOp_mono (s : Store) (p : Notification → Bool) (hs : StoreInv s) :
    readMonotone s { s with rows := s.rows.filter p } := by
  obtain ⟨_, hnodup, _⟩ := hs
  intro r hr r' hr' hideq hread
  have hr'mem : r' ∈ s.rows := List.mem_of_mem_filter hr'
  have : r' = r := List.inj_on_of_nodup_map hnodup hr'mem hr (by simpa using hideq)
  simp [this, hread]

/-! ## Idempotency bookkeeping -/

/-- The effect one non-NULL source-event id has on the set of stored ids:
kept as is when already present, appended otherwise. -/
def addSid (acc : List String) (v : String) : List String :=
  if v ∈ acc then acc else acc ++ [v]

/-- Every stored row carries a non-NULL source-event id. -/
def allHaveSid (s : Store) : Prop :=
  ∀ r ∈ s.rows, r.sourceEventID.isSome

theorem sourceConflict_some (rows : List Notification) (v : String) :
    sourceConflict rows (some v) = true ↔
      v ∈ rows.filterMap (fun r => r.sourceEventID) := by
  simp [sourceConflict, List.any_eq_true, List.mem_filterMap]

theorem filterMap_length_of_isSome {α β : Type} (f : α → Option β) (l : List α)
    (h : ∀ a ∈ l, (f a).isSome) : (l.filterMap f).length = l.length := by
  induction l with
  | nil => rfl
  | cons a l ih =>
    have ha : (f a).isSome := h a (List.mem_cons_self a l)
    obtain ⟨b, hb⟩ := Option.isSome_iff_exists.mp ha
    simp only [List.filterMap_cons, hb, List.length_cons]
    rw [ih (fun x hx => h x (List.mem_cons_of_mem a hx))]

theorem RepoCreate_storeSids (s : Store) (input : CreateNotificationInput) (now : Nat)
    (h : input.sourceEventID ≠ "") :
    storeSids (RepoCreate s input now).2 = addSid (storeSids s) input.sourceEventID := by
  have hsid : sidOf input = some input.sourceEventID := by simp [sidOf, h]
  by_cases hc : input.sourceEventID ∈ storeSids s
  · have hcf : sourceConflict s.rows (sidOf input) = true := by
      rw [hsid]; exact (sourceConflict_some s.rows input.sourceEventID).mpr hc
    simp [RepoCreate, addSid, hcf, hc]
  · have hcf : sourceConflict s.rows (sidOf input) = false := by
      rw [hsid]
      by_contra hb
      rw [Bool.not_eq_false] at hb
      exact hc ((sourceConflict_some s.rows input.sourceEventID).mp hb)
    unfold RepoCreate addSid
    rw [if_neg hc, hcf]
    simp only [Bool.false_eq_true, if_false]
    simp [storeSids, List.filterMap_append, mkRow, hsid]

theorem RepoCreate_allHaveSid (s : Store) (input : CreateNotificationInput) (now : Nat)
    (h : input.sourceEventID ≠ "") (hs : allHaveSid s) :
    allHaveSid (RepoCreate s input now).2 := by
  unfold RepoCreate
  by_cases hc : sourceConflict s.rows (sidOf input) = true
  · simpa [hc] using hs
  · simp only [Bool.not_eq_true] at hc
    intro r hr
    simp only [hc, Bool.false_eq_true, if_false] at hr
    rcases List.mem_append.mp hr with hmem | hmem
    · exact hs r hmem
    · simp only [List.mem_singleton] at hmem
      rw [hmem]
      simp [mkRow, sidOf, h]

theorem RepoBatchCreate_storeSids (s : Store) (inputs : List CreateNotificationInput) (now : Nat)
    (h : ∀ i ∈ inputs, i.sourceEventID ≠ "") (hs : allHaveSid s) :
    storeSids (RepoBatchCreate s inputs now).2 =
      (inputs.map (fun i => i.sourceEventID)).foldl addSid (storeSids s)
    ∧ allHaveSid (RepoBatchCreate s inputs now).2 := by
  induction inputs generalizing s with
  | nil => exact ⟨rfl, hs⟩
  | cons input rest ih =>
    rw [RepoBatchCreate_snd_cons]
    have h0 : input.sourceEventID ≠ "" := h input (List.mem_cons_self input rest)
    have hs' : allHaveSid (RepoCreate s input now).2 := RepoCreate_allHaveSid s input now h0 hs
    obtain ⟨hsids, hall⟩ := ih (RepoCreate s input now).2
      (fun i hi => h i (List.mem_cons_of_mem input hi)) hs'
    refine ⟨?_, hall⟩
    rw [hsids, RepoCreate_storeSids s input now h0]
    simp

theorem applyEvent_storeSids (s : Store) (e : StoreEvent × Nat)
    (h : ∀ i ∈ eventInputs e.1, i.sourceEventID ≠ "") (hs : allHaveSid s) :
    storeSids (applyEvent s e) =
      ((eventInputs e.1).map (fun i => i.sourceEventID)).foldl addSid (storeSids s)
    ∧ allHaveSid (applyEvent s e) := by
  rcases e with ⟨ev, now⟩
  cases ev with
  | create input =>
    have h0 : input.sourceEventID ≠ "" := h input (by simp [eventInputs])
    refine ⟨?_, RepoCreate_allHaveSid s input now h0 hs⟩
    simp [applyEvent, eventInputs, RepoCreate_storeSids s input now h0]
  | batch inputs =>
    simpa [applyEvent, eventInputs] using
      RepoBatchCreate_storeSids s inputs now (by simpa [eventInputs] using h) hs

theorem processEvents_storeSids (es : List (StoreEvent × Nat)) (s : Store)
    (h : ∀ e ∈ es, ∀ i ∈ eventInputs e.1, i.sourceEventID ≠ "") (hs : allHaveSid s) :
    storeSids (processEvents s es) = (seenSids es).foldl addSid (storeSids s)
    ∧ allHaveSid (processEvents s es) := by
  induction es generalizing s with
  | nil => exact ⟨rfl, hs⟩
  | cons e rest ih =>
    have h0 : ∀ i ∈ eventInputs e.1, i.sourceEventID ≠ "" := h e (List.mem_cons_self e rest)
    obtain ⟨hstep, hall⟩ := applyEvent_storeSids s e h0 hs
    obtain ⟨hrest, hall'⟩ := ih (applyEvent s e)
      (fun x hx => h x (List.mem_cons_of_mem e hx)) hall
    refine ⟨?_, by simpa [processEvents] using hall'⟩
    show storeSids (processEvents (applyEvent s e) rest) = _
    rw [hrest, hstep]
    simp [seenSids, List.foldl_append]

theorem addSid_nodup {acc : List String} (v : String) (h : acc.Nodup) :
    (addSid acc v).Nodup := by
  unfold addSid
  by_cases hv : v ∈ acc
  · simpa [hv]
  · simp only [hv, if_false]
    rw [List.nodup_append]
    refine ⟨h, List.nodup_singleton v, fun a ha hb => ?_⟩
    simp only [List.mem_singleton] at hb
    exact hv (by rwa [hb] at ha)

theorem addSid_toFinset (acc : List String) (v : String) :
    (addSid acc v).toFinset = insert v acc.toFinset := by
  unfold addSid
  by_cases hv : v ∈ acc
  · simp [hv, Finset.insert_eq_self.mpr (List.mem_toFinset.mpr hv)]
  · simp [hv, List.toFinset_append, Finset.union_comm, Finset.insert_eq]

theorem foldl_addSid_nodup (l : List String) (acc : List String) (h : acc.Nodup) :
    (l.foldl addSid acc).Nodup := by
  induction l generalizing acc with
  | nil => exact h
  | cons a l ih => exact ih (addSid acc a) (addSid_nodup a h)

theorem foldl_addSid_toFinset (l : List String) (acc : List String) :
    (l.foldl addSid acc).toFinset = acc.toFinset ∪ l.toFinset := by
  induction l generalizing acc with
  | nil => simp
  | cons a l ih =>
    show (l.foldl addSid (addSid acc a)).toFinset = _
    rw [ih (addSid acc a), addSid_toFinset]
    simp [Finset.insert_union, Finset.union_insert]

/-- A conflicting single insert leaves the store untouched. -/
theorem RepoCreate_none (s : Store) (input : CreateNotificationInput) (now : Nat)
    (h : (RepoCreate s input now).1 = none) : (RepoCreate s input now).2 = s := by
  unfold RepoCreate at h ⊢
  by_cases hc : sourceConflict s.rows (sidOf input) = true
  · simp [hc]
  · simp only [Bool.not_eq_true] at hc
    simp [hc] at h

/-- A successful single insert returns a fresh row that is in the new
store. -/
theorem RepoCreate_inserted (s : Store) (input : CreateNotificationInput) (now : Nat)
    (n : Notification) (h : (RepoCreate s input now).1 = some n) :
    s.nextID ≤ n.id ∧ n ∈ (RepoCreate s input now).2.rows := by
  unfold RepoCreate at h ⊢
  by_cases hc : sourceConflict s.rows (sidOf input) = true
  · simp [hc] at h
  · simp only [Bool.not_eq_true] at hc
    simp only [hc, Bool.false_eq_true, if_false, Option.some.injEq] at h ⊢
    subst h
    simp [mkRow]

/-- Every row `BatchCreate` reports as inserted is fresh relative to the
starting store and present in the final store. -/
theorem RepoBatchCreate_inserted (s : Store) (inputs : List CreateNotificationInput) (now : Nat) :
    ∀ n ∈ (RepoBatchCreate s inputs now).1,
      s.nextID ≤ n.id ∧ n ∈ (RepoBatchCreate s inputs now).2.rows := by
  induction inputs generalizing s with
  | nil => intro n hn; simp [RepoBatchCreate] at hn
  | cons input rest ih =>
    intro n hn
    rcases hcr : RepoCreate s input now with ⟨res, s1⟩
    have hs1 : s1 = (RepoCreate s input now).2 := by rw [hcr]
    have hgrow1 : growsFrom s s1 := hs1 ▸ RepoCreate_grows s input now
    cases res with
    | none =>
      have hnone : (RepoCreate s input now).1 = none := by rw [hcr]
      have hseq : s1 = s := by rw [hs1, RepoCreate_none s input now hnone]
      simp only [RepoBatchCreate, hcr] at hn ⊢
      obtain ⟨hid, hmem⟩ := ih s1 n hn
      exact ⟨hseq ▸ hid, hmem⟩
    | some n0 =>
      have hsome : (RepoCreate s input now).1 = some n0 := by rw [hcr]
      obtain ⟨hid0, hmem0⟩ := RepoCreate_inserted s input now n0 hsome
      simp only [RepoBatchCreate, hcr, List.mem_cons] at hn ⊢
      rcases hn with hn | hn
      · subst hn
        refine ⟨hid0, ?_⟩
        have hgrow2 : growsFrom s1 (RepoBatchCreate s1 rest now).2 :=
          RepoBatchCreate_grows s1 rest now
        exact hgrow2.2.1 n (hs1 ▸ hmem0)
      · obtain ⟨hid, hmem⟩ := ih s1 n hn
        exact ⟨le_trans (le_trans (le_refl s.nextID) (hs1 ▸ (RepoCreate_grows s input now).1)) hid,
          hmem⟩

/-! ## Claims -/

/-- C1: for every sequence of processed events whose inputs all carry a
non-empty `source_event_id`, the number of notification rows after
processing equals the number of distinct source-event ids presented,
regardless of duplication or interleaving; in particular `Create` (and
`BatchCreate`, per input) inserts no new row when the id already exists. -/
theorem c1_idempotency (es : List (StoreEvent × Nat))
    (h : ∀ e ∈ es, ∀ input ∈ eventInputs e.1, input.sourceEventID ≠ "") :
    (processEvents emptyStore es).rows.length = (seenSids es).dedup.length
    ∧ (∀ s input now, input.sourceEventID ≠ "" → input.sourceEventID ∈ storeSids s →
        RepoCreate s input now = (none, s))
    ∧ (∀ s inputs now, (∀ i ∈ inputs, i.sourceEventID ≠ "" ∧ i.sourceEventID ∈ storeSids s) →
        RepoBatchCreate s inputs now = ([], s)) := by
  have hconflict : ∀ (s : Store) (input : CreateNotificationInput) (now : Nat),
      input.sourceEventID ≠ "" → input.sourceEventID ∈ storeSids s →
      RepoCreate s input now = (none, s) := by
    intro s input now hne hmem
    have hsid : sidOf input = some input.sourceEventID := by simp [sidOf, hne]
    have hcf : sourceConflict s.rows (sidOf input) = true := by
      rw [hsid]; exact (sourceConflict_some s.rows input.sourceEventID).mpr hmem
    simp [RepoCreate, hcf]
  refine ⟨?_, hconflict, ?_⟩
  · obtain ⟨hsids, hall⟩ := processEvents_storeSids es emptyStore h
      (by intro r hr; simp [emptyStore] at hr)
    have hlen : (storeSids (processEvents emptyStore es)).length =
        (processEvents emptyStore es).rows.length :=
      filterMap_length_of_isSome _ _ hall
    have hsids0 : storeSids emptyStore = [] := rfl
    rw [← hlen, hsids, hsids0]
    have hnodup : ((seenSids es).foldl addSid []).Nodup :=
      foldl_addSid_nodup _ [] List.nodup_nil
    rw [← List.toFinset_card_of_nodup hnodup, foldl_addSid_toFinset]
    simp [List.card_toFinset]
  · intro s inputs now hins
    induction inputs with
    | nil => rfl
    | cons i rest ih =>
      have hi := hins i (List.mem_cons_self i rest)
      have hcr : RepoCreate s i now = (none, s) := hconflict s i now hi.1 hi.2
      have ihr := ih (fun j hj => hins j (List.mem_cons_of_mem i hj))
      simp [RepoBatchCreate, hcr, ihr]

/-- C1 witness: a duplicated id across a single create and a fan-out batch
yields one row per distinct id. -/
def c1ExampleEvents : List (StoreEvent × Nat) :=
  [(StoreEvent.create
      { tenantKey := "acme", userID := "U1", typ := "WORKFLOW", title := "a",
        body := "", metadata := "", sourceEventID := "e1" }, 0),
   (StoreEvent.batch
      [{ tenantKey := "acme", userID := "U2", typ := "WORKFLOW", title := "a",
         body := "", metadata := "", sourceEventID := "e1" },
       { tenantKey := "acme", userID := "U3", typ := "CRM", title := "b",
         body := "", metadata := "", sourceEventID := "e2" }], 1)]

theorem c1_idempotency_witness :
    (processEvents emptyStore c1ExampleEvents).rows.length = (seenSids c1ExampleEvents).dedup.length
    ∧ (processEvents emptyStore c1ExampleEvents).rows.length = 2 :=
  ⟨(c1_idempotency c1ExampleEvents (by decide)).1, by decide⟩

/-- The `MarkRead` row transformer, for reuse in the read-state proofs. -/
def markReadUpd (id : Nat) (tenantKey userID : String) (now : Nat) (r : Notification) :
    Notification :=
  if markReadMatches id tenantKey userID r
  then { r with isRead := true, readAt := some now }
  else r

/-- The `MarkAllRead` row transformer. -/
def markAllReadUpd (tenantKey userID : String) (now : Nat) (r : Notification) :
    Notification :=
  if markAllReadMatches tenantKey userID r
  then { r with isRead := true, readAt := some now }
  else r

theorem markReadUpd_id (id : Nat) (tk uid : String) (now : Nat) (r : Notification) :
    (markReadUpd id tk uid now r).id = r.id := by
  unfold markReadUpd; split <;> rfl

theorem markReadUpd_shape (id : Nat) (tk uid : String) (now : Nat) (r : Notification) :
    markReadUpd id tk uid now r = r
    ∨ markReadUpd id tk uid now r = { r with isRead := true, readAt := some now } := by
  unfold markReadUpd; split
  · exact Or.inr rfl
  · exact Or.inl rfl

theorem markReadUpd_keep (id : Nat) (tk uid : String) (now : Nat) (r : Notification)
    (h : r.isRead = true) : markReadUpd id tk uid now r = r := by
  unfold markReadUpd
  rw [if_neg]
  simp [markReadMatches, h]

theorem markAllReadUpd_id (tk uid : String) (now : Nat) (r : Notification) :
    (markAllReadUpd tk uid now r).id = r.id := by
  unfold markAllReadUpd; split <;> rfl

theorem markAllReadUpd_shape (tk uid : String) (now : Nat) (r : Notification) :
    markAllReadUpd tk uid now r = r
    ∨ markAllReadUpd tk uid now r = { r with isRead := true, readAt := some now } := by
  unfold markAllReadUpd; split
  · exact Or.inr rfl
  · exact Or.inl rfl

theorem markAllReadUpd_keep (tk uid : String) (now : Nat) (r : Notification)
    (h : r.isRead = true) : markAllReadUpd tk uid now r = r := by
  unfold markAllReadUpd
  rw [if_neg]
  simp [markAllReadMatches, h]

theorem RepoMarkRead_snd (s : Store) (id : Nat) (tk uid : String) (now : Nat) :
    (RepoMarkRead s id tk uid now).2 = s
    ∨ (RepoMarkRead s id tk uid now).2 = { s with rows := s.rows.map (markReadUpd id tk uid now) } := by
  by_cases h : (s.rows.filter (markReadMatches id tk uid)).length = 0
  · left; simp [RepoMarkRead, h]
  · right; simp [RepoMarkRead, h, markReadUpd]

theorem RepoMarkAllRead_snd (s : Store) (tk uid : String) (now : Nat) :
    (RepoMarkAllRead s tk uid now).2 = { s with rows := s.rows.map (markAllReadUpd tk uid now) } :=
  rfl

theorem RepoDelete_snd (s : Store) (id : Nat) (tk uid : String) :
    (RepoDelete s id tk uid).2 = s
    ∨ (RepoDelete s id tk uid).2 =
        { s with rows := s.rows.filter (fun r => !(r.id = id && r.tenantKey = tk && r.userID = uid)) } := by
  unfold RepoDelete
  dsimp only
  by_cases h : (s.rows.filter (fun r => !(r.id = id && r.tenantKey = tk && r.userID = uid))).length = s.rows.length
  · rw [if_pos h]
    exact Or.inl rfl
  · rw [if_neg h]
    exact Or.inr rfl

theorem readMonotone_self (s : Store) (hs : StoreInv s) : readMonotone s s :=
  readMonotone_of_growsFrom hs (growsFrom_refl s)

/-- C5: every store operation preserves the read-state invariant
(`read_at` non-null iff `is_read`) together with primary-key freshness, and
keeps the read state monotone; `MarkRead` and `MarkAllRead` touch only
unread rows and set both fields together. -/
theorem c5_monotonic_read_state (s : Store) (hs : StoreInv s) :
    (∀ input now, StoreInv (RepoCreate s input now).2 ∧ readMonotone s (RepoCreate s input now).2)
  ∧ (∀ inputs now, StoreInv (RepoBatchCreate s inputs now).2
      ∧ readMonotone s (RepoBatchCreate s inputs now).2)
  ∧ (∀ id tk uid now, StoreInv (RepoMarkRead s id tk uid now).2
      ∧ readMonotone s (RepoMarkRead s id tk uid now).2
      ∧ ∀ r ∈ s.rows, r ∈ (RepoMarkRead s id tk uid now).2.rows
          ∨ (r.isRead = false
             ∧ { r with isRead := true, readAt := some now } ∈ (RepoMarkRead s id tk uid now).2.rows))
  ∧ (∀ tk uid now, StoreInv (RepoMarkAllRead s tk uid now).2
      ∧ readMonotone s (RepoMarkAllRead s tk uid now).2
      ∧ ∀ r ∈ s.rows, r ∈ (RepoMarkAllRead s tk uid now).2.rows
          ∨ (r.isRead = false
             ∧ { r with isRead := true, readAt := some now } ∈ (RepoMarkAllRead s tk uid now).2.rows))
  ∧ (∀ id tk uid, StoreInv (RepoDelete s id tk uid).2 ∧ readMonotone s (RepoDelete s id tk uid).2)
  ∧ (∀ cutoff, StoreInv (RepoPurgeOlderThan s cutoff).2
      ∧ readMonotone s (RepoPurgeOlderThan s cutoff).2) := by
  refine ⟨?_, ?_, ?_, ?_, ?_, ?_⟩
  · intro input now
    exact ⟨RepoCreate_inv s input now hs,
      readMonotone_of_growsFrom hs (RepoCreate_grows s input now)⟩
  · intro inputs now
    exact ⟨RepoBatchCreate_inv s inputs now hs,
      readMonotone_of_growsFrom hs (RepoBatchCreate_grows s inputs now)⟩
  · intro id tk uid now
    rcases RepoMarkRead_snd s id tk uid now with hcase | hcase
    · rw [hcase]
      refine ⟨hs, readMonotone_self s hs, fun r hr => Or.inl hr⟩
    · rw [hcase]
      refine ⟨mapUpdate_inv s _ now (markReadUpd_id id tk uid now)
          (markReadUpd_shape id tk uid now) hs,
        mapUpdate_mono s _ (markReadUpd_id id tk uid now)
          (markReadUpd_keep id tk uid now) hs, ?_⟩
      intro r hr
      have hmem : markReadUpd id tk uid now r ∈ s.rows.map (markReadUpd id tk uid now) :=
        List.mem_map_of_mem _ hr
      unfold markReadUpd at hmem
      by_cases hm : markReadMatches id tk uid r = true
      · right
        refine ⟨?_, by simpa [hm] using hmem⟩
        simp only [markReadMatches, Bool.and_eq_true, decide_eq_true_eq] at hm
        exact hm.2
      · left
        simpa [hm] using hmem
  · intro tk uid now
    rw [RepoMarkAllRead_snd]
    refine ⟨mapUpdate_inv s _ now (markAllReadUpd_id tk uid now)
        (markAllReadUpd_shape tk uid now) hs,
      mapUpdate_mono s _ (markAllReadUpd_id tk uid now)
        (markAllReadUpd_keep tk uid now) hs, ?_⟩
    intro r hr
    have hmem : markAllReadUpd tk uid now r ∈ s.rows.map (markAllReadUpd tk uid now) :=
      List.mem_map_of_mem _ hr
    unfold markAllReadUpd at hmem
    by_cases hm : markAllReadMatches tk uid r = true
    · right
      refine ⟨?_, by simpa [hm] using hmem⟩
      simp only [markAllReadMatches, Bool.and_eq_true, decide_eq_true_eq] at hm
      exact hm.2
    · left
      simpa [hm] using hmem
  · intro id tk uid
    rcases RepoDelete_snd s id tk uid with hcase | hcase
    · rw [hcase]; exact ⟨hs, readMonotone_self s hs⟩
    · rw [hcase]; exact ⟨filterOp_inv s _ hs, filterOp_mono s _ hs⟩
  · intro cutoff
    exact ⟨filterOp_inv s _ hs, filterOp_mono s _ hs⟩

/-- C5 witness store: one unread and one read row. -/
def c5ExampleStore : Store :=
  { rows :=
      [{ id := 0, tenantKey := "acme", userID := "U1", typ := "SYSTEM", title := "a",
         body := "", metadata := "", isRead := false, readAt := none, createdAt := 0,
         sourceEventID := some "e1" },
       { id := 1, tenantKey := "acme", userID := "U1", typ := "SYSTEM", title := "b",
         body := "", metadata := "", isRead := true, readAt := some 3, createdAt := 1,
         sourceEventID := none }]
    nextID := 2 }

theorem c5_monotonic_read_state_witness :
    StoreInv (RepoMarkRead c5ExampleStore 0 "acme" "U1" 9).2
    ∧ readMonotone c5ExampleStore (RepoMarkRead c5ExampleStore 0 "acme" "U1" 9).2 := by
  have hinv : StoreInv c5ExampleStore := by
    unfold StoreInv readInvariant idsNodup idsFresh
    exact ⟨by decide, by decide, by decide⟩
  have h := (c5_monotonic_read_state c5ExampleStore hinv).2.2.1 0 "acme" "U1" 9
  exact ⟨h.1, h.2.1⟩

theorem markReadMatches_iff (id : Nat) (tk uid : String) (r : Notification) :
    markReadMatches id tk uid r = true ↔
      r.id = id ∧ r.tenantKey = tk ∧ r.userID = uid ∧ r.isRead = false := by
  simp [markReadMatches, and_assoc]

theorem RepoMarkRead_eq (s : Store) (id : Nat) (tk uid : String) (now : Nat) :
    RepoMarkRead s id tk uid now =
      if (s.rows.filter (markReadMatches id tk uid)).length = 0
      then (.error "notification not found or already read", s)
      else (.ok (), { s with rows := s.rows.map (markReadUpd id tk uid now) }) := by
  unfold RepoMarkRead markReadUpd
  rfl

/-- C6: `markRead` sets `is_read` and `read_at` together on the row matching
all three keys when it is unread, errors with "not found or already read"
exactly when no unread row matches, changes nothing when it errors, and
repeated calls on an already-read row fail identically. -/
theorem c6_mark_read (s : Store) (id : Nat) (tk uid : String) (now : Nat) :
    ((RepoMarkRead s id tk uid now).1 = .error "notification not found or already read"
      ↔ ¬ ∃ r ∈ s.rows, r.id = id ∧ r.tenantKey = tk ∧ r.userID = uid ∧ r.isRead = false)
  ∧ (∀ e, (RepoMarkRead s id tk uid now).1 = .error e →
        e = "notification not found or already read" ∧ (RepoMarkRead s id tk uid now).2 = s)
  ∧ (∀ r ∈ s.rows, r.id = id → r.tenantKey = tk → r.userID = uid → r.isRead = false →
        { r with isRead := true, readAt := some now } ∈ (RepoMarkRead s id tk uid now).2.rows)
  ∧ (∀ r ∈ s.rows, markReadMatches id tk uid r = false →
        r ∈ (RepoMarkRead s id tk uid now).2.rows)
  ∧ ((∃ r ∈ s.rows, r.id = id ∧ r.tenantKey = tk ∧ r.userID = uid ∧ r.isRead = false) →
      ∀ now', (RepoMarkRead (RepoMarkRead s id tk uid now).2 id tk uid now').1
        = .error "notification not found or already read")
  ∧ (∀ e, (RepoMarkRead s id tk uid now).1 = .error e → ∀ now',
      RepoMarkRead (RepoMarkRead s id tk uid now).2 id tk uid now' = (.error e, s)) := by
  have hexists : (∃ r ∈ s.rows, r.id = id ∧ r.tenantKey = tk ∧ r.userID = uid ∧ r.isRead = false)
      ↔ ¬ (s.rows.filter (markReadMatches id tk uid)).length = 0 := by
    rw [List.length_eq_zero, List.filter_eq_nil_iff]
    push_neg
    constructor
    · rintro ⟨r, hr, hp⟩
      exact ⟨r, hr, (markReadMatches_iff id tk uid r).mpr hp⟩
    · rintro ⟨r, hr, hp⟩
      exact ⟨r, hr, (markReadMatches_iff id tk uid r).mp hp⟩
  by_cases h0 : (s.rows.filter (markReadMatches id tk uid)).length = 0
  · have hres : RepoMarkRead s id tk uid now =
        (.error "notification not found or already read", s) := by
      rw [RepoMarkRead_eq, if_pos h0]
    have hnoex : ¬ ∃ r ∈ s.rows, r.id = id ∧ r.tenantKey = tk ∧ r.userID = uid ∧ r.isRead = false := by
      intro hx; exact (hexists.mp hx) h0
    refine ⟨?_, ?_, ?_, ?_, ?_, ?_⟩
    · rw [hres]; simp [hnoex]
    · intro e he
      rw [hres] at he ⊢
      simp only [Except.error.injEq] at he
      exact ⟨he.symm, rfl⟩
    · intro r hr h1 h2 h3 h4
      exact absurd ⟨r, hr, h1, h2, h3, h4⟩ hnoex
    · intro r hr _
      rw [hres]
      exact hr
    · intro hx
      exact absurd hx hnoex
    · intro e he now'
      rw [hres] at he ⊢
      simp only [Except.error.injEq] at he
      rw [RepoMarkRead_eq, if_pos h0, ← he]
  · have hres : RepoMarkRead s id tk uid now =
        (.ok (), { s with rows := s.rows.map (markReadUpd id tk uid now) }) := by
      rw [RepoMarkRead_eq, if_neg h0]
    have hex : ∃ r ∈ s.rows, r.id = id ∧ r.tenantKey = tk ∧ r.userID = uid ∧ r.isRead = false :=
      hexists.mpr h0
    have hsecond : ∀ r' ∈ s.rows.map (markReadUpd id tk uid now),
        markReadMatches id tk uid r' = false := by
      intro r' hr'
      simp only [List.mem_map] at hr'
      obtain ⟨r0, _, hfr0⟩ := hr'
      by_cases hm : markReadMatches id tk uid r0 = true
      · rw [← hfr0]
        unfold markReadUpd
        rw [if_pos hm]
        simp [markReadMatches]
      · rw [← hfr0]
        unfold markReadUpd
        rw [if_neg hm]
        exact Bool.not_eq_true _ ▸ hm
    refine ⟨?_, ?_, ?_, ?_, ?_, ?_⟩
    · rw [hres]
      constructor
      · intro he; cases he
      · intro hne; exact absurd hex hne
    · intro e he
      rw [hres] at he
      cases he
    · intro r hr h1 h2 h3 h4
      rw [hres]
      have hm : markReadMatches id tk uid r = true :=
        (markReadMatches_iff id tk uid r).mpr ⟨h1, h2, h3, h4⟩
      have : markReadUpd id tk uid now r = { r with isRead := true, readAt := some now } := by
        unfold markReadUpd; rw [if_pos hm]
      exact this ▸ List.mem_map_of_mem _ hr
    · intro r hr hm
      rw [hres]
      have : markReadUpd id tk uid now r = r := by
        unfold markReadUpd
        rw [if_neg (by simp [hm])]
      exact this ▸ List.mem_map_of_mem _ hr
    · intro _ now'
      rw [hres]
      have hzero : (((s.rows.map (markReadUpd id tk uid now)).filter
          (markReadMatches id tk uid))).length = 0 := by
        rw [List.length_eq_zero, List.filter_eq_nil_iff]
        intro r' hr'
        simp [hsecond r' hr']
      rw [RepoMarkRead_eq, if_pos hzero]
    · intro e he
      rw [hres] at he
      cases he

/-- C6 witness: marking the unread row, then retrying, fails identically. -/
theorem c6_mark_read_witness :
    { id := 0, tenantKey := "acme", userID := "U1", typ := "SYSTEM", title := "a",
      body := "", metadata := "", isRead := true, readAt := some 9, createdAt := 0,
      sourceEventID := some "e1" } ∈
      (RepoMarkRead
        { rows := [{ id := 0, tenantKey := "acme", userID := "U1", typ := "SYSTEM", title := "a",
                     body := "", metadata := "", isRead := false, readAt := none, createdAt := 0,
                     sourceEventID := some "e1" }], nextID := 1 }
        0 "acme" "U1" 9).2.rows := by
  have h := (c6_mark_read
    { rows := [{ id := 0, tenantKey := "acme", userID := "U1", typ := "SYSTEM", title := "a",
                 body := "", metadata := "", isRead := false, readAt := none, createdAt := 0,
                 sourceEventID := some "e1" }], nextID := 1 }
    0 "acme" "U1" 9).2.2.1
  exact h { id := 0, tenantKey := "acme", userID := "U1", typ := "SYSTEM", title := "a",
            body := "", metadata := "", isRead := false, readAt := none, createdAt := 0,
            sourceEventID := some "e1" } (by decide) rfl rfl rfl rfl

/-- C3: the scope switch of `resolveTargets` (USER without touching the
resolver, TENANT/ROLE/PLATFORM through the respective resolver calls with
error propagation, any other scope an error), followed by the
origin-inclusion step, whose append targets the request's tenant or
"master" when the tenant key is empty and leaves other keys unchanged. -/
theorem c3_resolve_targets (res : IAMResolver) (input : FanoutInput) :
    (input.targetScope = ScopeUser →
        resolveTargets res input = .ok (ensureOrigin input [(input.tenantKey, [input.targetID])])
        ∧ ∀ res' : IAMResolver, resolveTargets res' input = resolveTargets res input)
  ∧ (input.targetScope = ScopeTenant →
        (∀ us, res.usersByTenant input.tenantKey = .ok us →
            resolveTargets res input = .ok (ensureOrigin input [(input.tenantKey, us)]))
        ∧ (∀ e, res.usersByTenant input.tenantKey = .error e →
            resolveTargets res input = .error e))
  ∧ (input.targetScope = ScopeRole →
        (∀ us, res.usersByRole input.tenantKey input.targetID = .ok us →
            resolveTargets res input = .ok (ensureOrigin input [(input.tenantKey, us)]))
        ∧ (∀ e, res.usersByRole input.tenantKey input.targetID = .error e →
            resolveTargets res input = .error e))
  ∧ (input.targetScope = ScopePlatform →
        (∀ all, res.allActiveUsers = .ok all →
            resolveTargets res input = .ok (ensureOrigin input all))
        ∧ (∀ e, res.allActiveUsers = .error e → resolveTargets res input = .error e))
  ∧ (input.targetScope ≠ ScopeUser → input.targetScope ≠ ScopeTenant →
     input.targetScope ≠ ScopeRole → input.targetScope ≠ ScopePlatform →
        resolveTargets res input = .error ("unknown target scope: " ++ input.targetScope))
  ∧ (∀ m : List (String × List String),
        (input.originUserID = "" → ensureOrigin input m = m)
      ∧ (input.originUserID ≠ "" → originIncluded m input.originUserID = true →
            ensureOrigin input m = m)
      ∧ (input.originUserID ≠ "" → originIncluded m input.originUserID = false →
            ensureOrigin input m =
              alistAppend m (if input.tenantKey = "" then "master" else input.tenantKey)
                input.originUserID))
  ∧ (∀ (m : List (String × List String)) (k v : String),
        alistLookup (alistAppend m k v) k = some (((alistLookup m k).getD []) ++ [v])
      ∧ ∀ k', k' ≠ k → alistLookup (alistAppend m k v) k' = alistLookup m k') := by
  refine ⟨?_, ?_, ?_, ?_, ?_, ?_, ?_⟩
  · intro h
    constructor
    · unfold resolveTargets resolveScope
      rw [h, if_pos rfl]
    · intro res'
      unfold resolveTargets resolveScope
      rw [h, if_pos rfl, if_pos rfl]
  · intro h
    constructor
    · intro us hus
      unfold resolveTargets resolveScope
      rw [h, if_neg (by decide), if_pos rfl, hus]
    · intro e he
      unfold resolveTargets resolveScope
      rw [h, if_neg (by decide), if_pos rfl, he]
  · intro h
    constructor
    · intro us hus
      unfold resolveTargets resolveScope
      rw [h, if_neg (by decide), if_neg (by decide), if_pos rfl, hus]
    · intro e he
      unfold resolveTargets resolveScope
      rw [h, if_neg (by decide), if_neg (by decide), if_pos rfl, he]
  · intro h
    constructor
    · intro all hall
      unfold resolveTargets resolveScope
      rw [h, if_neg (by decide), if_neg (by decide), if_neg (by decide), if_pos rfl, hall]
    · intro e he
      unfold resolveTargets resolveScope
      rw [h, if_neg (by decide), if_neg (by decide), if_neg (by decide), if_pos rfl, he]
  · intro h1 h2 h3 h4
    unfold resolveTargets resolveScope
    rw [if_neg h1, if_neg h2, if_neg h3, if_neg h4]
  · intro m
    refine ⟨?_, ?_, ?_⟩
    · intro h
      unfold ensureOrigin
      rw [if_pos h]
    · intro h hin
      unfold ensureOrigin
      rw [if_neg h, if_pos hin]
    · intro h hin
      unfold ensureOrigin
      rw [if_neg h, if_neg (by simp [hin])]
  · intro m k v
    induction m with
    | nil =>
      refine ⟨by simp [alistAppend, alistLookup], fun k' hk' => ?_⟩
      simp [alistAppend, alistLookup, Ne.symm hk']
    | cons p rest ih =>
      rcases p with ⟨k0, vs⟩
      by_cases hk0 : k0 = k
      · subst hk0
        refine ⟨by simp [alistAppend, alistLookup], fun k' hk' => ?_⟩
        simp [alistAppend, alistLookup, Ne.symm hk']
      · refine ⟨?_, fun k' hk' => ?_⟩
        · simp only [alistAppend, alistLookup, hk0, if_false]
          exact ih.1
        · by_cases hk0' : k0 = k'
          · subst hk0'
            simp [alistAppend, alistLookup, hk']
          · simp only [alistAppend, alistLookup, hk0, hk0', if_false]
            exact ih.2 k' hk'

/-- C3 witness resolver: never consulted for a USER-scoped request. -/
def c3ExampleResolver : IAMResolver :=
  { usersByTenant := fun _ => .error "unused"
    usersByRole := fun _ _ => .error "unused"
    allActiveUsers := .error "unused" }

/-- C3 witness input: USER scope with an origin user outside the target. -/
def c3ExampleInput : FanoutInput :=
  { targetScope := "USER", targetID := "U1", tenantKey := "acme", typ := "SYSTEM",
    title := "t", body := "", metadata := "", sourceEventID := "e1", originUserID := "U2" }

theorem c3_resolve_targets_witness :
    resolveTargets c3ExampleResolver c3ExampleInput = .ok [("acme", ["U1", "U2"])] := by
  have h := ((c3_resolve_targets c3ExampleResolver c3ExampleInput).1 rfl).1
  rw [h]
  rfl

/-- C2 resolver: two enabled users in the "acme" tenant. -/
def c2FailingResolver : IAMResolver :=
  { usersByTenant := fun _ => .ok ["A1", "A2"]
    usersByRole := fun _ _ => .ok []
    allActiveUsers := .ok [] }

/-- C2 failing input: a TENANT-scoped request with a non-empty
`source_event_id`. -/
def c2FailingInput : FanoutInput :=
  { targetScope := "TENANT", targetID := "acme", tenantKey := "acme", typ := "SYSTEM",
    title := "maintenance", body := "", metadata := "", sourceEventID := "t1",
    originUserID := "" }

/-- C2: scope resolution succeeds with two (tenant, user) pairs and the
flattened batch has two inputs, yet fan-out on the empty store persists and
broadcasts only one row: every row of a fan-out batch shares the request's
`source_event_id`, so the single-column partial unique index suppresses all
but the first.  "Exactly one row per pair" therefore fails on the code. -/
theorem c2_scope_faithfulness_failure :
    resolveTargets c2FailingResolver c2FailingInput = .ok [("acme", ["A1", "A2"])]
    ∧ (fanoutBatch [("acme", ["A1", "A2"])] c2FailingInput).length = 2
    ∧ (ServiceFanout emptyStore c2FailingResolver c2FailingInput 0).2.1.rows.length = 1
    ∧ (ServiceFanout emptyStore c2FailingResolver c2FailingInput 0).2.2.length = 1 :=
  ⟨rfl, rfl, rfl, rfl⟩

theorem ServiceCreate_eq (s : Store) (input : CreateNotificationInput) (now : Nat) :
    ServiceCreate s input now =
      match (RepoCreate s input now).1 with
      | none => (.ok none, (RepoCreate s input now).2, [])
      | some n => (.ok (some n), (RepoCreate s input now).2, [n]) := by
  unfold ServiceCreate
  rcases h : RepoCreate s input now with ⟨res0, s'⟩
  cases res0 <;> simp [h]

theorem ServiceFanout_eq_ok (s : Store) (res : IAMResolver) (input : FanoutInput) (now : Nat)
    (m : List (String × List String)) (hm : resolveTargets res input = .ok m)
    (hne : fanoutBatch m input ≠ []) :
    ServiceFanout s res input now =
      (.ok (), (RepoBatchCreate s (fanoutBatch m input) now).2,
       (RepoBatchCreate s (fanoutBatch m input) now).1) := by
  unfold ServiceFanout
  rw [hm]
  have hempty : (fanoutBatch m input).isEmpty = false := by
    cases hb : fanoutBatch m input with
    | nil => exact absurd hb hne
    | cons a l => rfl
  simp only [hempty, Bool.false_eq_true, if_false]

/-- C4: a duplicate `source_event_id` is success, not failure, and never
reaches the Push Hub: `Create` returns ok-with-no-entity and broadcasts
nothing on conflict, and `Fanout` broadcasts exactly the rows `BatchCreate`
reports as newly inserted, all of which are new rows absent from the prior
store. -/
theorem c4_duplicate_handling (s : Store) (hs : StoreInv s) :
    (∀ input now, input.sourceEventID ≠ "" →
        sourceConflict s.rows (sidOf input) = true →
        ServiceCreate s input now = (.ok none, s, []))
  ∧ (∀ input now, ∀ n ∈ (ServiceCreate s input now).2.2,
        n ∉ s.rows ∧ n ∈ (ServiceCreate s input now).2.1.rows)
  ∧ (∀ res input now m, resolveTargets res input = .ok m → fanoutBatch m input ≠ [] →
        ServiceFanout s res input now =
          (.ok (), (RepoBatchCreate s (fanoutBatch m input) now).2,
           (RepoBatchCreate s (fanoutBatch m input) now).1))
  ∧ (∀ res input now, ∀ n ∈ (ServiceFanout s res input now).2.2,
        n ∉ s.rows ∧ n ∈ (ServiceFanout s res input now).2.1.rows) := by
  refine ⟨?_, ?_, ?_, ?_⟩
  · intro input now _ hcf
    rw [ServiceCreate_eq]
    have h1 : (RepoCreate s input now).1 = none := by simp [RepoCreate, hcf]
    have h2 : (RepoCreate s input now).2 = s := by simp [RepoCreate, hcf]
    rw [h1, h2]
  · intro input now n hn
    rw [ServiceCreate_eq] at hn
    cases h1 : (RepoCreate s input now).1 with
    | none => rw [h1] at hn; simp at hn
    | some n0 =>
      rw [h1] at hn
      simp only [List.mem_singleton] at hn
      subst hn
      obtain ⟨hid, hmem⟩ := RepoCreate_inserted s input now n h1
      refine ⟨?_, ?_⟩
      · intro hcontra
        exact absurd hid (Nat.not_le_of_lt (hs.2.2 n hcontra))
      · rw [ServiceCreate_eq, h1]
        exact hmem
  · intro res input now m hm hne
    exact ServiceFanout_eq_ok s res input now m hm hne
  · intro res input now n hn
    cases hm : resolveTargets res input with
    | error e =>
      unfold ServiceFanout at hn
      rw [hm] at hn
      simp at hn
    | ok m =>
      by_cases hne : fanoutBatch m input = []
      · unfold ServiceFanout at hn
        rw [hm] at hn
        simp only [hne] at hn
        simp at hn
      · rw [ServiceFanout_eq_ok s res input now m hm hne] at hn ⊢
        obtain ⟨hid, hmem⟩ := RepoBatchCreate_inserted s (fanoutBatch m input) now n hn
        refine ⟨?_, hmem⟩
        intro hcontra
        exact absurd hid (Nat.not_le_of_lt (hs.2.2 n hcontra))

/-- C4 witness: a duplicated id on a one-row store is accepted silently and
broadcasts nothing. -/
def c4ExampleStore : Store :=
  { rows := [{ id := 0, tenantKey := "acme", userID := "U1", typ := "SYSTEM", title := "a",
               body := "", metadata := "", isRead := false, readAt := none, createdAt := 0,
               sourceEventID := some "e1" }]
    nextID := 1 }

theorem c4_duplicate_handling_witness :
    ServiceCreate c4ExampleStore
      { tenantKey := "acme", userID := "U2", typ := "SYSTEM", title := "b",
        body := "", metadata := "", sourceEventID := "e1" } 5
      = (.ok none, c4ExampleStore, []) := by
  have hinv : StoreInv c4ExampleStore := by
    unfold StoreInv readInvariant idsNodup idsFresh
    exact ⟨by decide, by decide, by decide⟩
  exact (c4_duplicate_handling c4ExampleStore hinv).1
    { tenantKey := "acme", userID := "U2", typ := "SYSTEM", title := "b",
      body := "", metadata := "", sourceEventID := "e1" } 5 (by decide) (by decide)

theorem foldl_realmEntry (adminRealm : String) (env : KeycloakEnv) (realms : List RealmRep)
    (acc : List (String × List String)) :
    realms.foldl (fun acc realm =>
        match realmEntry adminRealm env realm with
        | none => acc
        | some entry => acc ++ [entry]) acc
      = acc ++ realms.filterMap (realmEntry adminRealm env) := by
  induction realms generalizing acc with
  | nil => simp
  | cons realm rest ih =>
    cases h : realmEntry adminRealm env realm with
    | none => simp [List.foldl_cons, h, List.filterMap_cons, ih]
    | some entry => simp [List.foldl_cons, h, List.filterMap_cons, ih]

theorem realmEntry_some (adminRealm : String) (env : KeycloakEnv) (realm : RealmRep)
    (p : String × List String) (h : realmEntry adminRealm env realm = some p) :
    p.1 = realm.realm ∧ realm.enabled = true ∧ realm.realm ≠ adminRealm
    ∧ ∃ users, env.listUsers realm.realm = .ok users ∧ p.2 = enabledIDs users
        ∧ 0 < (enabledIDs users).length := by
  unfold realmEntry at h
  split at h
  · cases h
  · next hcond =>
    simp only [Bool.or_eq_true, Bool.not_eq_true', decide_eq_true_eq, not_or] at hcond
    cases hlu : env.listUsers realm.realm with
    | error e => rw [hlu] at h; cases h
    | ok users =>
      rw [hlu] at h
      simp only [] at h
      split at h
      · next hlen =>
        injection h with hp
        rw [← hp]
        refine ⟨rfl, ?_, hcond.2, users, rfl, rfl, by omega⟩
        have := hcond.1
        cases hre : realm.enabled
        · rw [hre] at this; exact absurd rfl this
        · rfl
      · cases h

/-- C7: `AllActiveUsers` fails when the admin token or the realm
enumeration fails; otherwise it succeeds, never lists the admin realm,
lists the enabled users of each enabled non-admin realm whose user listing
succeeded and is non-empty, and a realm whose user listing failed is
skipped without failing the call. -/
theorem c7_all_active_users (adminRealm : String) (env : KeycloakEnv) :
    (∀ e, env.adminToken = .error e → AllActiveUsers adminRealm env = .error e)
  ∧ (∀ tok e, env.adminToken = .ok tok → env.realms = .error e →
        AllActiveUsers adminRealm env = .error e)
  ∧ (∀ tok realms, env.adminToken = .ok tok → env.realms = .ok realms →
        AllActiveUsers adminRealm env = .ok (realms.filterMap (realmEntry adminRealm env))
      ∧ (∀ p ∈ realms.filterMap (realmEntry adminRealm env), p.1 ≠ adminRealm)
      ∧ (∀ realm ∈ realms, realm.enabled = true → realm.realm ≠ adminRealm →
          ∀ users, env.listUsers realm.realm = .ok users → 0 < (enabledIDs users).length →
            (realm.realm, enabledIDs users) ∈ realms.filterMap (realmEntry adminRealm env))
      ∧ (∀ realm ∈ realms, ∀ e, env.listUsers realm.realm = .error e →
          ∀ p ∈ realms.filterMap (realmEntry adminRealm env), p.1 ≠ realm.realm)) := by
  refine ⟨?_, ?_, ?_⟩
  · intro e he
    unfold AllActiveUsers
    rw [he]
  · intro tok e htok hre
    unfold AllActiveUsers
    rw [htok, hre]
  · intro tok realms htok hre
    refine ⟨?_, ?_, ?_, ?_⟩
    · unfold AllActiveUsers
      rw [htok, hre]
      simp only [Except.ok.injEq]
      rw [foldl_realmEntry]
      simp
    · intro p hp
      obtain ⟨realm, _, hentry⟩ := List.mem_filterMap.mp hp
      obtain ⟨hp1, _, hadm, _⟩ := realmEntry_some adminRealm env realm p hentry
      rw [hp1]
      exact hadm
    · intro realm hrealm hen hadm users hus hlen
      refine List.mem_filterMap.mpr ⟨realm, hrealm, ?_⟩
      unfold realmEntry
      rw [if_neg (by simp [hen, hadm]), hus]
      simp only []
      rw [if_pos (by omega)]
    · intro realm _ e hfail p hp
      obtain ⟨realm', _, hentry⟩ := List.mem_filterMap.mp hp
      obtain ⟨hp1, _, _, users, hok, _, _⟩ := realmEntry_some adminRealm env realm' p hentry
      intro hcontra
      rw [hcontra] at hp1
      rw [← hp1] at hok
      rw [hfail] at hok
      cases hok

/-- C7 witness environment: the admin realm, a healthy realm, a realm with
only disabled users, a realm whose listing fails, and a disabled realm. -/
def c7ExampleEnv : KeycloakEnv :=
  { adminToken := .ok "tok"
    realms := .ok [{ realm := "master", enabled := true },
                   { realm := "acme", enabled := true },
                   { realm := "beta", enabled := true },
                   { realm := "gamma", enabled := true },
                   { realm := "off", enabled := false }]
    listUsers := fun r =>
      if r = "gamma" then .error "boom"
      else if r = "beta" then .ok [{ id := "B1", enabled := false }]
      else .ok [{ id := "A1", enabled := true }, { id := "A2", enabled := false }] }

theorem c7_all_active_users_witness :
    AllActiveUsers "master" c7ExampleEnv = .ok [("acme", ["A1"])] := by
  have h := ((c7_all_active_users "master" c7ExampleEnv).2.2 "tok"
    [{ realm := "master", enabled := true },
     { realm := "acme", enabled := true },
     { realm := "beta", enabled := true },
     { realm := "gamma", enabled := true },
     { realm := "off", enabled := false }] rfl rfl).1
  rw [h]
  rfl

/-- C8: the direct command decoder skips an unparseable record, skips an
unrecognised scope with an empty target id, and otherwise emits a
FanoutRequest whose type falls back to CUSTOM when unrecognised, whose
scope falls back to USER when unrecognised, and whose idempotency key is
`commandId`; recognised type and scope values pass through unchanged. -/
theorem c8_direct_command (cmd : DirectCommand) :
    handleDirectCommand none = none
  ∧ (recognizedScope cmd.targetScope = false → cmd.targetID = "" →
      handleDirectCommand (some cmd) = none)
  ∧ (recognizedScope cmd.targetScope = true ∨ cmd.targetID ≠ "" →
      handleDirectCommand (some cmd) = some
        { targetScope := if recognizedScope cmd.targetScope then cmd.targetScope else ScopeUser
          targetID := cmd.targetID
          tenantKey := cmd.tenantKey
          typ := if recognizedType cmd.typ then cmd.typ else TypeCustom
          title := cmd.title
          body := cmd.body
          metadata := cmd.metadata
          sourceEventID := cmd.commandID
          originUserID := "" }) := by
  refine ⟨rfl, ?_, ?_⟩
  · intro hsc htid
    unfold handleDirectCommand
    simp [hsc, htid]
  · intro hcase
    unfold handleDirectCommand
    by_cases hsc : recognizedScope cmd.targetScope = true
    · simp [hsc]
    · have htid : cmd.targetID ≠ "" := by
        rcases hcase with hcase | hcase
        · exact absurd hcase hsc
        · exact hcase
      simp only [Bool.not_eq_true] at hsc
      simp [hsc, htid]

theorem c8_direct_command_witness :
    handleDirectCommand (some
      { commandID := "c1", tenantKey := "acme", targetScope := "WEIRD", targetID := "U1",
        typ := "ODD", title := "t", body := "b", metadata := "" })
      = some
        { targetScope := "USER", targetID := "U1", tenantKey := "acme", typ := "CUSTOM",
          title := "t", body := "b", metadata := "", sourceEventID := "c1",
          originUserID := "" } := by
  have h := (c8_direct_command
    { commandID := "c1", tenantKey := "acme", targetScope := "WEIRD", targetID := "U1",
      typ := "ODD", title := "t", body := "b", metadata := "" }).2.2
    (Or.inr (by decide))
  rw [h]
  rfl

/-- C9 counterexample: a requested limit of 150 is replaced by the default
20, not reduced to the bound 100 as the claim states. -/
theorem c9_limit_counterexample : listLimit 150 = 20 ∧ listLimit 150 ≠ 100 := by
  constructor
  · rfl
  · intro h
    cases h

/-- C9 (amended): the applied limit is the requested one when inside
[1, 100] and the default 20 otherwise (so it always lies in [1, 100], but an
out-of-range request falls back to 20 rather than being clamped to the
nearer bound), and the offset parsed by the HTTP layer is non-negative. -/
theorem c9_limit_applied (s : Store) (f : NotificationFilter) (raw : Option Int) :
    (1 ≤ f.limit → f.limit ≤ 100 → listLimit f.limit = f.limit)
  ∧ ((f.limit ≤ 0 ∨ 100 < f.limit) → listLimit f.limit = 20)
  ∧ 1 ≤ listLimit f.limit ∧ listLimit f.limit ≤ 100
  ∧ ServiceList s f = RepoList s { f with limit := listLimit f.limit }
  ∧ parseIntQuery none 20 = 20
  ∧ 0 ≤ parseIntQuery raw 0 := by
  refine ⟨?_, ?_, ?_, ?_, rfl, rfl, ?_⟩
  · intro h1 h2
    unfold listLimit
    rw [if_neg (by omega)]
  · intro h
    unfold listLimit
    rw [if_pos (by omega)]
  · unfold listLimit
    split
    · omega
    · next h => omega
  · unfold listLimit
    split
    · omega
    · next h => omega
  · cases raw with
    | none => simp [parseIntQuery]
    | some v =>
      simp only [parseIntQuery]
      split
      · omega
      · next h => omega

theorem c9_limit_applied_witness :
    listLimit 42 = 42 ∧ 0 ≤ parseIntQuery (some 7) 0 := by
  have h := c9_limit_applied emptyStore
    { tenantKey := "", userID := "", isRead := none, typ := "", limit := 42, offset := 0 }
    (some 7)
  exact ⟨h.1 (by decide) (by decide), h.2.2.2.2.2.2⟩

/-- C10: `verifyWithJWKS` never consults the token — in particular not its
signature validity — and succeeds whenever the JWKS cache is fresh or the
fetch-and-decode succeeds; hence `JWTAuth` accepts any structurally
well-formed bearer token whose issuer yields a realm, regardless of the
signature. -/
theorem c10_structural_jwt (token : JWT) (cacheFresh : Bool) (jwksFetch : Except String Unit) :
    (∀ t' : JWT, verifyWithJWKS cacheFresh jwksFetch token = verifyWithJWKS cacheFresh jwksFetch t')
  ∧ (cacheFresh = true ∨ jwksFetch = .ok () →
      verifyWithJWKS cacheFresh jwksFetch token = .ok ())
  ∧ (token.wellFormed = true → extractRealm token.iss ≠ "" →
     (cacheFresh = true ∨ jwksFetch = .ok ()) →
      JWTAuth true token cacheFresh jwksFetch = .accepted token.sub (extractRealm token.iss)) := by
  have hverify : cacheFresh = true ∨ jwksFetch = .ok () →
      verifyWithJWKS cacheFresh jwksFetch token = .ok () := by
    intro hcase
    cases cacheFresh with
    | true => rfl
    | false =>
      rcases hcase with hcase | hcase
      · cases hcase
      · simp [verifyWithJWKS, hcase]
  refine ⟨fun t' => rfl, hverify, ?_⟩
  intro hwf hrealm hcase
  unfold JWTAuth
  simp only [Bool.not_true, Bool.false_eq_true, if_false, hwf, Bool.not_eq_true]
  rw [if_neg hrealm, hverify hcase]

theorem c10_structural_jwt_witness :
    JWTAuth true
      { wellFormed := true, iss := "http://keycloak:8080/realms/acme", sub := "U1",
        sigValid := false }
      false (.ok ()) = .accepted "U1" "acme" := by
  have h := (c10_structural_jwt
    { wellFormed := true, iss := "http://keycloak:8080/realms/acme", sub := "U1",
      sigValid := false } false (.ok ())).2.2 rfl (by decide) (Or.inr rfl)
  rw [h]
  decide

end ArdaNotification
